import Mathlib

/-!
Verification development for `pdf_to_ics.py`, a parser that extracts work-shift
schedule entries from the text of a PDF timetable export.

The Python source is shallowly embedded here.  Lines of text are modelled as
`List Char`; Python's `str` helpers (`strip`, `split`, `in`, `startswith`),
its `int()` conversion (ASCII digits with an optional sign and surrounding
whitespace), the three regular expressions of the source (implemented by a
small backtracking matcher with Python's leftmost / greedy semantics), the
`datetime.strptime` format `%d/%m/%Y %H:%M` (CPython's per-directive regexes,
including its field ranges and the calendar validation performed by the
`datetime` constructor), and the Europe/Zurich offset rules (CET / CEST with
the EU transition rule: last Sunday of March 02:00, last Sunday of October
03:00, `fold=0` disambiguation as in PEP 495, which is what `zoneinfo` gives
the source for the era the schedules live in) are all given executable
definitions.  Machine arithmetic does not occur in the source (Python
integers are unbounded), so `Nat` / `Int` are used directly.
-/

namespace PdfToIcs

/-! ### Character classes (ASCII fragment used by the source's data) -/

/-- Numeric value of an ASCII digit character. -/
def dval (c : Char) : Nat := c.toNat - 48

/-- ASCII digit test (Python's `\d` / `str.isdigit` on the ASCII range). -/
def isDig (c : Char) : Bool := 48 ≤ c.toNat && c.toNat ≤ 57

/-- ASCII whitespace test (Python's `\s` / `str.strip` default set). -/
def isWS (c : Char) : Bool :=
  c.toNat = 32 || c.toNat = 9 || c.toNat = 10 || c.toNat = 13 || c.toNat = 11 || c.toNat = 12

/-- ASCII word-character test (Python's `\w` on the ASCII range). -/
def isWord (c : Char) : Bool :=
  isDig c || (65 ≤ c.toNat && c.toNat ≤ 90) || (97 ≤ c.toNat && c.toNat ≤ 122) || c.toNat = 95

/-! ### Python string helpers on `List Char` -/

/-- Test that `needle` is a prefix of `hay` (used for Python's `str.startswith`). -/
def leadMatch : List Char → List Char → Bool
  | [], _ => true
  | _ :: _, [] => false
  | a :: as_, b :: bs => a = b && leadMatch as_ bs

/-- Python's substring containment `needle in hay`. -/
def hasSub (hay needle : List Char) : Bool :=
  match hay with
  | [] => needle.isEmpty
  | _ :: t => leadMatch needle hay || hasSub t needle

/-- Python's `str.strip()` (remove leading and trailing whitespace). -/
def stripL (cs : List Char) : List Char :=
  ((cs.dropWhile isWS).reverse.dropWhile isWS).reverse

/-- Python's `str.split(sep)` for a one-character separator: splits at every
occurrence, keeping empty pieces (`"a:".split(':') == ["a", ""]`). -/
def splitChar (sep : Char) : List Char → List (List Char)
  | [] => [[]]
  | c :: rest =>
    let r := splitChar sep rest
    if c = sep then [] :: r
    else
      match r with
      | h :: t => (c :: h) :: t
      | [] => [[c]]

/-- Helper for `pySplitWs` (fuel-driven so that it reduces in the kernel). -/
def pySplitWsAux : Nat → List Char → List (List Char)
  | 0, _ => []
  | _ + 1, [] => []
  | n + 1, c :: rest =>
    if isWS c then pySplitWsAux n rest
    else (c :: rest.takeWhile (fun d => !isWS d)) :: pySplitWsAux n (rest.dropWhile (fun d => !isWS d))

/-- Python's `str.split()` with no argument: split on whitespace runs,
discarding empty pieces. -/
def pySplitWs (cs : List Char) : List (List Char) := pySplitWsAux cs.length cs

/-- Decimal digit character for a value `0..9`. -/
def digitChar : Nat → Char
  | 0 => '0' | 1 => '1' | 2 => '2' | 3 => '3' | 4 => '4'
  | 5 => '5' | 6 => '6' | 7 => '7' | 8 => '8' | _ => '9'

/-- Helper for `natChars` (fuel-driven). -/
def natCharsAux : Nat → Nat → List Char
  | 0, _ => []
  | fuel + 1, n =>
    if n < 10 then [digitChar n]
    else natCharsAux fuel (n / 10) ++ [digitChar (n % 10)]

/-- Decimal representation of a natural number (Python's `str(n)` for `n ≥ 0`). -/
def natChars (n : Nat) : List Char := natCharsAux (n + 1) n

/-- Value of a list of ASCII digit characters read in base 10. -/
def digitsToNat (cs : List Char) : Nat := cs.foldl (fun acc c => 10 * acc + dval c) 0

/-- Python's `int(s)` restricted to the inputs this program can meet:
optional surrounding whitespace, optional sign, then one or more ASCII
digits; anything else raises (here: `none`). -/
def pyInt (cs0 : List Char) : Option Int :=
  let cs := stripL cs0
  match cs with
  | [] => none
  | c :: rest =>
    if c = '+' then
      if rest ≠ [] ∧ rest.all isDig then some (digitsToNat rest : Int) else none
    else if c = '-' then
      if rest ≠ [] ∧ rest.all isDig then some (-(digitsToNat rest : Int)) else none
    else
      if cs.all isDig then some (digitsToNat cs : Int) else none

/-- Python's `f"{n:02d}"`: decimal representation zero-padded to width 2,
the padding inserted between the sign and the digits. -/
def pad2 (n : Int) : List Char :=
  if n < 0 then
    let ds := natChars n.natAbs
    '-' :: (if ds.length < 1 then '0' :: ds else ds)
  else
    let ds := natChars n.natAbs
    if ds.length < 2 then '0' :: ds else ds

/-! ### Time Normalizer (`parse_time`) -/

/-- Core of `parse_time` on character lists.  Mirrors the source: reject when
no colon occurs, strip, split on `':'`, convert both pieces with `int`
(a piece count other than two makes the tuple unpacking raise), and format
the two numbers zero-padded to two digits. -/
def parse_timeC (cs : List Char) : Option (List Char) :=
  if cs.contains ':' then
    match splitChar ':' (stripL cs) with
    | [hs, ms] =>
      match pyInt hs, pyInt ms with
      | some h, some m => some (pad2 h ++ ':' :: pad2 m)
      | _, _ => none
    | _ => none
  else none

/-- The `parse_time` of the source: string-level wrapper. -/
def parse_time (s : String) : Option String := (parse_timeC s.data).map String.mk

/-! ### A backtracking matcher for the source's three regular expressions

The patterns of the source are concatenations of literal alternations and
greedy repetitions of the classes `\d`, `\s`, `\w`; none of them nests
quantifiers or groups, so a pattern is modelled as a `List Item` and a match
returns the substring consumed by every item (capture groups of the source
are reassembled from those pieces).  Greedy preference with full backtracking
reproduces CPython `re` semantics for this pattern class; `re.search` tries
start positions left to right; `re.finditer` resumes after each match. -/

/-- A character class of the source's patterns. -/
inductive CK | digit | word | space
deriving Repr, DecidableEq

/-- Membership test of a character class. -/
def ckTest : CK → Char → Bool
  | .digit, c => isDig c
  | .word, c => isWord c
  | .space, c => isWS c

/-- One item of a pattern: an alternation of literals (tried in written
order, as `re` does) or a greedy bounded repetition of a class. -/
inductive Item
  | lits (ss : List (List Char))
  | rep (k : CK) (lo : Nat) (hi : Option Nat)
deriving Repr

/-- Length of the longest prefix of `cs` inside class `k`. -/
def maxRun (k : CK) : List Char → Nat
  | [] => 0
  | c :: t => if ckTest k c then maxRun k t + 1 else 0

/-- First success of `f` over `xs`, in order (the backtracking choice). -/
def firstSome {α β : Type} : List α → (α → Option β) → Option β
  | [], _ => none
  | x :: t, f =>
    match f x with
    | some b => some b
    | none => firstSome t f

/-- Backtracking matcher anchored at the head of `cs`: returns the pieces
consumed by each item and the rest of the input.  The fuel argument is only
a structural-recursion device; one unit per item suffices. -/
def matchItemsF : Nat → List Item → List Char → Option (List (List Char) × List Char)
  | 0, _, _ => none
  | _ + 1, [], cs => some ([], cs)
  | fuel + 1, .lits ss :: rest, cs =>
    firstSome ss fun s =>
      if leadMatch s cs then
        (matchItemsF fuel rest (cs.drop s.length)).map fun r => (s :: r.1, r.2)
      else none
  | fuel + 1, .rep k lo hi :: rest, cs =>
    let m := maxRun k cs
    let mx := match hi with | some h => min h m | none => m
    if mx < lo then none
    else
      firstSome ((List.range (mx - lo + 1)).map (fun j => mx - j)) fun n =>
        (matchItemsF fuel rest (cs.drop n)).map fun r => (cs.take n :: r.1, r.2)

/-- Matcher at a fixed start position. -/
def matchItems (pat : List Item) (cs : List Char) : Option (List (List Char) × List Char) :=
  matchItemsF (pat.length + 1) pat cs

/-- Model of `re.search`: leftmost start position that matches. -/
def pySearchL (pat : List Item) : List Char → Option (List (List Char) × List Char)
  | [] => matchItems pat []
  | cs@(_ :: t) =>
    match matchItems pat cs with
    | some r => some r
    | none => pySearchL pat t

/-- Helper for `findAll` (fuel-driven; every pattern of the source consumes
at least one character per match, so `length + 1` rounds suffice). -/
def findAllF (pat : List Item) : Nat → List Char → List (List (List Char))
  | 0, _ => []
  | n + 1, cs =>
    match pySearchL pat cs with
    | none => []
    | some (ms, rest) => ms :: findAllF pat n rest

/-- Model of `re.finditer`: all non-overlapping matches, each search resuming at the
end of the previous match. -/
def findAll (pat : List Item) (cs : List Char) : List (List (List Char)) :=
  findAllF pat (cs.length + 1) cs

/-! ### The source's patterns and extractors -/

/-- Shorthand items. -/
def wsI : Item := .rep .space 1 none
def d1I : Item := .rep .digit 1 none
def w1I : Item := .rep .word 1 none
def d12I : Item := .rep .digit 1 (some 2)
def d2I : Item := .rep .digit 2 (some 2)
def d4I : Item := .rep .digit 4 (some 4)
def colonI : Item := .lits [[':']]
def dashI : Item := .lits [['-']]

/-- The first-shift pattern of `extract_first_shift_time`:
`(?:BO|DP|DPO)\s+(\d{1,2}:\d{2})\s+\d{1,2}:\d{2}\s+\w+\s+(\d+)\s+\d+\s+-\s+\d+\s+(\w+)`.
Item indices: group 1 is items 2-4, group 2 is item 12, group 3 is item 20. -/
def firstPat : List Item :=
  [.lits ["BO".data, "DP".data, "DPO".data], wsI,
   d12I, colonI, d2I, wsI,
   d12I, colonI, d2I, wsI,
   w1I, wsI,
   d1I, wsI,
   d1I, wsI, dashI, wsI, d1I, wsI,
   w1I]

/-- The general shift pattern of `extract_shifts_info`:
`(\d+)\s+(\d+)\s+-\s+(\d+)\s+(\w+)\s+(\d{1,2}:\d{2})\s+(\d{1,2}:\d{2})\s+(\w+)`.
Item indices: group 1 = item 0, group 2 = item 2, group 3 = item 6,
group 4 = item 8, group 5 = items 10-12, group 6 = items 14-16,
group 7 = item 18. -/
def generalPat : List Item :=
  [d1I, wsI, d1I, wsI, dashI, wsI, d1I, wsI,
   w1I, wsI,
   d12I, colonI, d2I, wsI,
   d12I, colonI, d2I, wsI,
   w1I]

/-- The date pattern of `parse_schedule`:
`9387\s+\w+\.\s+(\d{2}/\d{2}/\d{4})`.
Group 1 is items 5-9. -/
def datePat : List Item :=
  [.lits ["9387".data], wsI, w1I, .lits [['.']], wsI,
   d2I, .lits [['/']], d2I, .lits [['/']], d4I]

/-- Piece consumed by item `i` of a match. -/
def grp (ms : List (List Char)) (i : Nat) : List Char := ms.getD i []

/-- The pending first-shift fragment: the dictionary built by
`extract_first_shift_time` (`ldebpce` and `start_time` keys). -/
structure FirstShift where
  ldebpce : String
  start_time : Option String
deriving Repr, DecidableEq

/-- The dictionary built per match by `extract_shifts_info`. -/
structure ShiftInfo where
  ligne : String
  ldebpce : String
  lfinpce : String
  start_time : Option String
  end_time : Option String
  full_line : String
deriving Repr, DecidableEq

/-- The `extract_first_shift_time` of the source. -/
def extract_first_shift_time (line : List Char) : Option FirstShift :=
  match pySearchL firstPat line with
  | some (ms, _) =>
    some { ldebpce := String.mk (grp ms 20),
           start_time := (parse_timeC (grp ms 2 ++ grp ms 3 ++ grp ms 4)).map String.mk }
  | none => none

/-- The `extract_shifts_info` of the source. -/
def extract_shifts_info (line : List Char) : List ShiftInfo :=
  (findAll generalPat line).map fun ms =>
    { ligne := String.mk (grp ms 0),
      ldebpce := String.mk (grp ms 8),
      lfinpce := String.mk (grp ms 18),
      start_time := (parse_timeC (grp ms 10 ++ grp ms 11 ++ grp ms 12)).map String.mk,
      end_time := (parse_timeC (grp ms 14 ++ grp ms 15 ++ grp ms 16)).map String.mk,
      full_line := String.mk line }

/-- The date search of `parse_schedule` (`re.search` of `datePat`, group 1). -/
def dateSearch (line : List Char) : Option String :=
  match pySearchL datePat line with
  | some (ms, _) =>
    some (String.mk (grp ms 5 ++ grp ms 6 ++ grp ms 7 ++ grp ms 8 ++ grp ms 9))
  | none => none

/-! ### Calendar arithmetic and the Europe/Zurich offset -/

/-- Gregorian leap-year rule (what `datetime` uses). -/
def leapB (y : Nat) : Bool := y % 4 == 0 && (y % 100 != 0 || y % 400 == 0)

/-- Days in a month (what the `datetime` constructor validates against). -/
def dim (y m : Nat) : Nat :=
  if m = 2 then (if leapB y then 29 else 28)
  else if m = 4 ∨ m = 6 ∨ m = 9 ∨ m = 11 then 30
  else 31

/-- Serial day number of a Gregorian civil date (days since 1970-01-01,
the standard days-from-civil computation). -/
def civilToDays (y m d : Nat) : Int :=
  let yi : Int := if m ≤ 2 then (y : Int) - 1 else (y : Int)
  let era : Int := (if 0 ≤ yi then yi else yi - 399) / 400
  let yoe : Int := yi - era * 400
  let mp : Int := ((m : Int) + 9) % 12
  let doy : Int := (153 * mp + 2) / 5 + (d : Int) - 1
  let doe : Int := yoe * 365 + yoe / 4 - yoe / 100 + doy
  era * 146097 + doe - 719468

/-- Successor of a civil date. -/
def nextDay (y m d : Nat) : Nat × Nat × Nat :=
  if d < dim y m then (y, m, d + 1)
  else if m < 12 then (y, m + 1, 1)
  else (y + 1, 1, 1)

/-- Serial day of the last Sunday of month `m` (March or October) of year
`y`: 1970-01-01 (serial 0) was a Thursday, so serial `s` is a Sunday exactly
when `(s + 4) % 7 = 0`. -/
def lastSun (y m : Nat) : Int :=
  let s := civilToDays y m 31
  s - (s + 4) % 7

/-- Whether Europe/Zurich is on summer time at a given wall-clock date and
minute of day, with PEP 495 `fold=0` disambiguation: the EU rule moves the
clock forward at 02:00 CET on the last Sunday of March (wall times in the
gap get the pre-transition offset) and back at 03:00 CEST on the last Sunday
of October (wall times in the fold get the first, summer offset). -/
def zurichDST (y m d : Nat) (minute : Nat) : Bool :=
  let t := civilToDays y m d
  let sp := lastSun y 3
  let fa := lastSun y 10
  if t < sp then false
  else if t = sp then decide (180 ≤ minute)
  else if t < fa then true
  else if t = fa then decide (minute < 180)
  else false

/-- UTC offset, in minutes, of a Europe/Zurich wall-clock time. -/
def zurichOffset (y m d : Nat) (minute : Nat) : Int :=
  if zurichDST y m d minute then 120 else 60

/-- A timezone-aware `datetime` of the source: a wall-clock civil date and
minute of day, implicitly carrying the Europe/Zurich zone. -/
structure DT where
  y : Nat
  m : Nat
  d : Nat
  minute : Nat
deriving Repr, DecidableEq

/-- UTC offset of the instant (what `utcoffset()` returns, in minutes). -/
def DT.off (t : DT) : Int := zurichOffset t.y t.m t.d t.minute

/-- Wall-clock value in minutes.  Both datetimes of `create_shift` carry the
*same* `tzinfo` object, and Python compares and subtracts aware datetimes
with a common `tzinfo` attribute naively, ignoring the zone — so this is the
value the source's `<` and `-` operate on. -/
def DT.wall (t : DT) : Int := civilToDays t.y t.m t.d * 1440 + t.minute

/-- Absolute (UTC) time in minutes: the instant the record denotes once the
zone offset is honoured (what downstream calendar encoding sees). -/
def DT.abs (t : DT) : Int := t.wall - t.off

/-- Model of `dt + timedelta(days=1)`: aware-`datetime` arithmetic in Python is
wall-clock arithmetic — the civil date advances one day, the wall minute and
the zone are kept, and the offset is re-derived from the new wall time. -/
def DT.addDay (t : DT) : DT :=
  let (y, m, d) := nextDay t.y t.m t.d
  ⟨y, m, d, t.minute⟩

/-! ### `datetime.strptime` with format `"%d/%m/%Y %H:%M"`

CPython compiles the format to a regex matched against the whole string:
`%d` is `3[01]|[12]\d|0[1-9]|[1-9]`, `%m` is `1[0-2]|0[1-9]|[1-9]`,
`%Y` is `\d{4}`, whitespace in the format becomes `\s+`, `%H` is
`2[0-3]|[0-1]\d|\d`, `%M` is `[0-5]\d|\d`, and trailing unmatched input
raises.  Because the two-digit branch of each directive is preferred and its
one-digit fallback can only re-match a digit against the mandatory following
separator, the alternation is deterministic, and because `%d/%m/%Y` consumes
only digits and slashes while the following `\s+` can match neither, the
date region is exactly the maximal digit-or-slash prefix of the input.  The
parser below exploits both facts; the `datetime` constructor's range checks
(calendar-valid day, year at least `MINYEAR = 1`) are applied at the end. -/

/-- A `%d`- or `%m`-style field: a two-digit value in `[lo, hi]` not equal
to `00`, else one digit in `[1, 9]`. -/
def pD2 (lo hi : Nat) : List Char → Option (Nat × List Char)
  | a :: b :: rest =>
    if isDig a && isDig b then
      let v := 10 * dval a + dval b
      if lo ≤ v ∧ v ≤ hi then some (v, rest) else none
    else if isDig a && decide (1 ≤ dval a) then some (dval a, b :: rest)
    else none
  | [a] => if isDig a && decide (1 ≤ dval a) then some (dval a, []) else none
  | [] => none

/-- Directive `%Y`: exactly four digits. -/
def pYear4 : List Char → Option (Nat × List Char)
  | a :: b :: c :: d :: rest =>
    if isDig a && isDig b && isDig c && isDig d then
      some (1000 * dval a + 100 * dval b + 10 * dval c + dval d, rest)
    else none
  | _ => none

/-- A literal character of the format. -/
def pLit (ch : Char) : List Char → Option (List Char)
  | c :: rest => if c = ch then some rest else none
  | [] => none

/-- Directive `%H`: two digits up to 23, else one digit. -/
def pHour : List Char → Option (Nat × List Char)
  | a :: b :: rest =>
    if isDig a && isDig b then
      let v := 10 * dval a + dval b
      if v ≤ 23 then some (v, rest) else none
    else if isDig a then some (dval a, b :: rest)
    else none
  | [a] => if isDig a then some (dval a, []) else none
  | [] => none

/-- Directive `%M` at the end of the format: two digits up to 59 or one digit,
consuming the whole remaining input. -/
def pMinEnd : List Char → Option Nat
  | [a] => if isDig a then some (dval a) else none
  | [a, b] =>
    if isDig a && isDig b then
      let v := 10 * dval a + dval b
      if v ≤ 59 then some v else none
    else none
  | _ => none

/-- The `%d/%m/%Y` region, which must consume its whole input. -/
def parseDateExact (cs : List Char) : Option (Nat × Nat × Nat) :=
  match pD2 1 31 cs with
  | some (d, r1) =>
    match pLit '/' r1 with
    | some r2 =>
      match pD2 1 12 r2 with
      | some (m, r3) =>
        match pLit '/' r3 with
        | some r4 =>
          match pYear4 r4 with
          | some (y, r5) => if r5 = [] then some (y, m, d) else none
          | none => none
        | none => none
      | none => none
    | none => none
  | none => none

/-- Model of `datetime.strptime(s, "%d/%m/%Y %H:%M")`, including the constructor's
validation.  Returns `(year, month, day, hour, minute)`. -/
def strptimeDMYHM (cs : List Char) : Option (Nat × Nat × Nat × Nat × Nat) :=
  let dpart := cs.takeWhile (fun c => isDig c || c = '/')
  let rest0 := cs.drop dpart.length
  match parseDateExact dpart with
  | none => none
  | some (y, m, d) =>
    match rest0 with
    | [] => none
    | c :: _ =>
      if isWS c then
        match pHour (rest0.dropWhile isWS) with
        | some (h, r1) =>
          match pLit ':' r1 with
          | some r2 =>
            match pMinEnd r2 with
            | some mi => if 1 ≤ y ∧ d ≤ dim y m then some (y, m, d, h, mi) else none
            | none => none
          | none => none
        | none => none
      else none

/-! ### Shift Builder (`create_shift`) -/

/-- Python's f-string rendering of an optional string (`None` prints as
`"None"`, which no time directive can parse). -/
def optStr : Option String → String
  | some s => s
  | none => "None"

/-- Zero-pad a digit list to width 2. -/
def zfill2 (cs : List Char) : List Char := if cs.length < 2 then '0' :: cs else cs

/-- Rendering of `f"{duration.total_seconds() / 3600:.2f}h"` for a duration of `mins`
minutes.  `5 * mins / 3` hundredths of an hour is never a half-integer, so
rounding to the nearest hundredth is unambiguous and the double computation
of the source lands on the same two decimals. -/
def fmt2h (mins : Int) : String :=
  let cent := (10 * mins.natAbs + 3) / 6
  String.mk ((if mins < 0 then ['-'] else []) ++
    natChars (cent / 100) ++ '.' :: zfill2 (natChars (cent % 100)) ++ ['h'])

/-- The finished shift record (the dictionary returned by `create_shift`;
`end` is a Lean keyword, so that key is called `end_`). -/
structure Shift where
  date : Nat × Nat × Nat
  start : DT
  end_ : DT
  ligne : String
  ldebpce : String
  lfinpce : String
  duration : String
  details : String
deriving Repr, DecidableEq

/-- The `create_shift` of the source: parse `f"{date_str} {t}"` for both times,
attach the Europe/Zurich zone, roll the end instant forward one day when it
sorts before the start instant, and build the record.  Any parse failure
(malformed or `None` time, invalid calendar date, hour or minute out of
`strptime` range) is the `except` path: `none`. -/
def create_shift (date_str : String) (si : ShiftInfo) : Option Shift :=
  match strptimeDMYHM ((date_str ++ " " ++ optStr si.start_time).data),
        strptimeDMYHM ((date_str ++ " " ++ optStr si.end_time).data) with
  | some (y1, m1, d1, h1, n1), some (y2, m2, d2, h2, n2) =>
    let s : DT := ⟨y1, m1, d1, h1 * 60 + n1⟩
    let e0 : DT := ⟨y2, m2, d2, h2 * 60 + n2⟩
    let e : DT := if e0.wall < s.wall then e0.addDay else e0
    some { date := (s.y, s.m, s.d),
           start := s,
           end_ := e,
           ligne := si.ligne,
           ldebpce := si.ldebpce,
           lfinpce := si.lfinpce,
           duration := fmt2h (e.wall - s.wall),
           details := si.full_line }
  | _, _ => none

/-! ### Schedule Parser (`parse_schedule`) -/

/-- The header/footer marker substrings. -/
def headerMarkers : List (List Char) :=
  ["tl Jour".data, "HASTUS".data, "Division:".data, "Page:".data]

/-- The rest/holiday check: `any(x in line.split()[3:5] for x in ['R', 'C', 'VAP', 'X'])`. -/
def isRest (line : List Char) : Bool :=
  let toks := ((pySplitWs line).drop 3).take 2
  ["R".data, "C".data, "VAP".data, "X".data].any fun c => toks.contains c

/-- The in-place override of a match dictionary by the pending first-shift
fragment (`shift_info['ldebpce'] = ...; shift_info['start_time'] = ...`). -/
def overrideInfo (si : ShiftInfo) (f : FirstShift) : ShiftInfo :=
  { si with ldebpce := f.ldebpce, start_time := f.start_time }

/-- Python's `list.index`: index of the first element equal to `x`
(its value when `x` is absent is never relied on). -/
def idxOf (x : ShiftInfo) : List ShiftInfo → Nat
  | [] => 0
  | y :: t => if y = x then 0 else idxOf x t + 1

/-- The body of `for shift_info in second_shifts: ...` — iterate the match
list by position, carrying the list itself (the source mutates the current
dictionary in place before appending, so the list seen by `.index` changes),
the pending fragment and the output accumulator.  The fuel argument is the
number of positions left to visit. -/
def goShifts (date : String) : Nat → Nat → List ShiftInfo → Option FirstShift →
    List Shift → List Shift × Option FirstShift
  | 0, _, _, frag, out => (out, frag)
  | n + 1, i, cur, frag, out =>
    match cur[i]? with
    | none => (out, frag)
    | some si =>
      match frag with
      | some f =>
        if idxOf si cur = 0 then
          let si' := overrideInfo si f
          goShifts date n (i + 1) (cur.set i si') none (out ++ (create_shift date si').toList)
        else
          goShifts date n (i + 1) cur (some f) (out ++ (create_shift date si).toList)
      | none => goShifts date n (i + 1) cur none (out ++ (create_shift date si).toList)

/-- The shift loop run over a full match list: `if shift: shifts.append(shift)`
keeps exactly the successful builds, in order. -/
def processShifts (date : String) (gs : List ShiftInfo) (frag : Option FirstShift) :
    List Shift × Option FirstShift :=
  goShifts date gs.length 0 gs frag []

/-- Effect of one (stripped, non-empty) line on the parser: the shifts it
emits and the new date / pending-fragment state.  Follows the source's
branch order: header markers, then the `9387` date-line branch (date match,
rest/holiday skip, first-shift extraction, general extraction with
carry-over), then the continuation branch guarded by an established date and
a `-` character. -/
def lineEffect (cd : Option String) (fr : Option FirstShift) (line : List Char) :
    List Shift × Option String × Option FirstShift :=
  if headerMarkers.any (fun mk => hasSub line mk) then ([], cd, fr)
  else if leadMatch "9387".data line then
    match dateSearch line with
    | some dt =>
      if isRest line then ([], some dt, fr)
      else
        let fr1 := extract_first_shift_time line
        let (out, fr2) := processShifts dt (extract_shifts_info line) fr1
        (out, some dt, fr2)
    | none => ([], cd, fr)
  else
    match cd with
    | some dt =>
      if line.contains '-' then
        let (out, fr2) := processShifts dt (extract_shifts_info line) fr
        (out, some dt, fr2)
      else ([], some dt, fr)
    | none => ([], none, fr)

/-- Parser state: the accumulated output list, `current_date`, and
`first_shift_time`. -/
structure PState where
  shifts : List Shift
  current_date : Option String
  first_shift_time : Option FirstShift
deriving Repr, DecidableEq

/-- One iteration of the line loop. -/
def stepLine (st : PState) (line : List Char) : PState :=
  let (out, cd, fr) := lineEffect st.current_date st.first_shift_time line
  ⟨st.shifts ++ out, cd, fr⟩

/-- The `parse_schedule` of the source: strip lines, drop empty ones, run the
state machine, return the emitted shifts. -/
def parse_schedule (text : String) : List Shift :=
  let lines := ((splitChar '\n' text.data).map stripL).filter (fun l => l ≠ [])
  (lines.foldl stepLine ⟨[], none, none⟩).shifts

/-- Specification helper (not part of the source): the match list after the
pending fragment, when present, has overridden the head match. -/
def applyCarry (frag : Option FirstShift) (gs : List ShiftInfo) : List ShiftInfo :=
  match frag, gs with
  | some f, g :: rest => overrideInfo g f :: rest
  | _, _ => gs

/-! ### Concrete probe data used by witnesses and scenario theorems -/

/-- Three-line input: a date line whose first-shift fragment finds no general
match, a rest-day date line, and a continuation line with one general match. -/
def c10text : String :=
  "9387 lun. 02/09/2024 T1 T2 BO 05:10 05:20 SRV 12 3 - 4 ABC\n" ++
  "9387 mar. 03/09/2024 R\n" ++
  "12 5 - 6 XYZ 06:00 06:40 SRV"

/-- A rest-day date line that also carries shift-like substrings. -/
def restLineW : List Char :=
  "9387 sam. 07/09/2024 R BO 05:10 05:20 SRV 12 3 - 4 ABC 05:40 06:40 DEF".data

/-- A match group whose start time is out of `strptime` range, so its build
fails. -/
def siBad : ShiftInfo := ⟨"12", "XYZ", "SRV", some "25:99", some "06:40", "LB"⟩

/-- A match group that builds successfully. -/
def siGood : ShiftInfo := ⟨"13", "AAA", "BBB", some "07:00", some "08:00", "LG"⟩

/-- The record `siGood` builds to on 02/09/2024. -/
def shGood : Shift :=
  ⟨(2024, 9, 2), ⟨2024, 9, 2, 420⟩, ⟨2024, 9, 2, 480⟩, "13", "AAA", "BBB", "1.00h", "LG"⟩

/-- The zero-length shift used against the strict invariant of the spec. -/
def siEq : ShiftInfo := ⟨"12", "ABC", "DEF", some "08:00", some "08:00", "LE"⟩

/-- The record `siEq` builds to: its end equals its start. -/
def shEq : Shift :=
  ⟨(2024, 9, 2), ⟨2024, 9, 2, 480⟩, ⟨2024, 9, 2, 480⟩, "12", "ABC", "DEF", "0.00h", "LE"⟩

/-- A 50-minute shift, whose exact duration (5/6 h) has no two-decimal
representation. -/
def si50 : ShiftInfo := ⟨"12", "ABC", "DEF", some "08:00", some "08:50", "L5"⟩

/-- The record `si50` builds to. -/
def sh50 : Shift :=
  ⟨(2024, 9, 2), ⟨2024, 9, 2, 480⟩, ⟨2024, 9, 2, 530⟩, "12", "ABC", "DEF", "0.83h", "L5"⟩

/-! ## Lemmas about the shift loop -/

/-- With no pending fragment the loop builds every remaining match
independently: fuel `n` starting at position `i` visits `(cur.drop i).take n`
and keeps the successful builds. -/
theorem goShifts_none (date : String) :
    ∀ (n i : Nat) (cur : List ShiftInfo) (out : List Shift),
      goShifts date n i cur none out =
        (out ++ ((cur.drop i).take n).filterMap (create_shift date), none) := by
  intro n
  induction n with
  | zero => intro i cur out; simp [goShifts]
  | succ n ih =>
    intro i cur out
    match h : cur[i]? with
    | none =>
      have hlen : cur.length ≤ i := by
        by_contra hlt
        push_neg at hlt
        rw [List.getElem?_eq_getElem hlt] at h
        exact Option.noConfusion h
      simp [goShifts, h, List.drop_eq_nil_of_le hlen]
    | some si =>
      have hlt : i < cur.length := by
        rcases Nat.lt_or_ge i cur.length with hl | hg
        · exact hl
        · rw [List.getElem?_eq_none hg] at h
          exact Option.noConfusion h
      have hdrop : cur.drop i = si :: cur.drop (i + 1) := by
        rw [List.drop_eq_getElem_cons hlt]
        congr 1
        rw [List.getElem?_eq_getElem hlt] at h
        exact Option.some_inj.mp h
      simp only [goShifts, h, ih]
      rw [hdrop]
      cases hc : create_shift date si <;>
        simp [List.filterMap_cons, hc, List.append_assoc]

/-- With a pending fragment, the head match of a non-empty list is
overridden and the fragment is cleared before the rest of the loop runs. -/
theorem processShifts_some (date : String) (f : FirstShift) (g : ShiftInfo)
    (gs : List ShiftInfo) :
    processShifts date (g :: gs) (some f) =
      ((create_shift date (overrideInfo g f)).toList ++ gs.filterMap (create_shift date),
        none) := by
  have hidx : idxOf g (g :: gs) = 0 := by simp [idxOf]
  simp only [processShifts, List.length_cons, goShifts, List.getElem?_cons_zero, hidx,
    if_pos rfl, List.set_cons_zero]
  rw [goShifts_none]
  cases hc : create_shift date (overrideInfo g f) <;>
    simp [hc, List.drop_one, List.take_length]

/-- With no pending fragment the loop is a plain `filterMap`. -/
theorem processShifts_none (date : String) (gs : List ShiftInfo) :
    processShifts date gs none = (gs.filterMap (create_shift date), none) := by
  simp [processShifts, goShifts_none, List.take_length]

/-- An empty match list leaves the pending fragment in place. -/
theorem processShifts_nil (date : String) (frag : Option FirstShift) :
    processShifts date [] frag = ([], frag) := by
  simp [processShifts, goShifts]

/-- The two preceding results, packaged: the emitted shifts are always the
`filterMap` of the carry-adjusted match list, and the fragment survives
exactly the runs that see no match. -/
theorem processShifts_spec (date : String) (gs : List ShiftInfo)
    (frag : Option FirstShift) :
    (processShifts date gs frag).1 = (applyCarry frag gs).filterMap (create_shift date) ∧
    (processShifts date gs frag).2 = (if gs.isEmpty then frag else none) := by
  match frag, gs with
  | none, gs => cases gs <;> simp [processShifts_none, applyCarry]
  | some f, [] => simp [processShifts_nil, applyCarry]
  | some f, g :: gs =>
    rw [processShifts_some]
    cases hc : create_shift date (overrideInfo g f) <;>
      simp [applyCarry, List.filterMap_cons, hc]

/-- Dropping one element that `f` sends to `none` does not change a
`filterMap`. -/
theorem filterMap_erase_of_none {α β : Type} [DecidableEq α] (f : α → Option β) :
    ∀ (l : List α) (g : α), g ∈ l → f g = none →
      l.filterMap f = (l.erase g).filterMap f := by
  intro l
  induction l with
  | nil => intro g hg; cases hg
  | cons a t ih =>
    intro g hg hfg
    by_cases hag : a = g
    · subst hag
      simp [List.filterMap_cons, hfg]
    · have hgt : g ∈ t := by
        cases hg with
        | head => exact absurd rfl hag
        | tail _ h => exact h
      rw [List.erase_cons_tail (by simp [hag])]
      simp only [List.filterMap_cons]
      rw [ih g hgt hfg]

/-! ## Lemmas about dates and `strptime` -/

/-- The map `civilToDays` sends the calendar successor of a valid date to the next
serial day. -/
theorem civilNext (y m d : Nat) (hm1 : 1 ≤ m) (hm2 : m ≤ 12) (hd1 : 1 ≤ d)
    (hd2 : d ≤ dim y m) :
    civilToDays (nextDay y m d).1 (nextDay y m d).2.1 (nextDay y m d).2.2 =
      civilToDays y m d + 1 := by
  by_cases h : d < dim y m
  · simp only [nextDay, if_pos h]
    by_cases hm : m ≤ 2 <;> simp only [civilToDays, hm, if_pos, if_neg] <;>
      push_cast <;> omega
  · have hd : d = dim y m := by omega
    subst hd
    simp only [nextDay, if_neg h]
    by_cases hm12 : m < 12
    · simp only [if_pos hm12]
      interval_cases m <;> simp only [civilToDays, dim, leapB] <;> norm_num <;> omega
    · have : m = 12 := by omega
      subst this
      simp only [if_neg hm12, civilToDays, dim]
      norm_num
      omega

/-- Advancing a valid wall-clock datetime one day advances its wall value by
exactly 24 hours. -/
theorem addDay_wall (t : DT) (hm1 : 1 ≤ t.m) (hm2 : t.m ≤ 12) (hd1 : 1 ≤ t.d)
    (hd2 : t.d ≤ dim t.y t.m) : t.addDay.wall = t.wall + 1440 := by
  have h := civilNext t.y t.m t.d hm1 hm2 hd1 hd2
  simp only [DT.addDay, DT.wall]
  rcases hnd : nextDay t.y t.m t.d with ⟨y', m', d'⟩
  simp only [hnd] at h ⊢
  omega

/-- A digit character's value is at most 9. -/
theorem dval_le (a : Char) (ha : isDig a = true) : 1 * dval a ≤ 9 := by
  simp only [isDig, Bool.and_eq_true, decide_eq_true_eq] at ha
  simp only [dval]
  omega

/-- Bounds carried by a successful `pD2` parse (the directives call it with
`lo = 1` and a high bound of at least 9). -/
theorem pD2_bounds (lo hi : Nat) (cs r : List Char) (v : Nat) (h9 : 9 ≤ hi)
    (hlo : lo = 1) (h : pD2 lo hi cs = some (v, r)) : 1 ≤ v ∧ v ≤ hi := by
  match cs with
  | [] => simp [pD2] at h
  | [a] =>
    simp only [pD2] at h
    split at h
    · simp only [Option.some_inj, Prod.mk.injEq] at h
      rename_i ha
      simp only [Bool.and_eq_true, decide_eq_true_eq] at ha
      have := dval_le a ha.1
      omega
    · exact absurd h (by simp)
  | a :: b :: rest =>
    simp only [pD2] at h
    split at h
    · split at h
      · simp only [Option.some_inj, Prod.mk.injEq] at h
        omega
      · exact absurd h (by simp)
    · split at h
      · simp only [Option.some_inj, Prod.mk.injEq] at h
        rename_i hna ha
        simp only [Bool.and_eq_true, decide_eq_true_eq] at ha
        have := dval_le a ha.1
        omega
      · exact absurd h (by simp)

/-- Bound carried by a successful `pHour` parse. -/
theorem pHour_bounds (cs r : List Char) (v : Nat) (h : pHour cs = some (v, r)) :
    v ≤ 23 := by
  match cs with
  | [] => simp [pHour] at h
  | [a] =>
    simp only [pHour] at h
    split at h
    · simp only [Option.some_inj, Prod.mk.injEq] at h
      rename_i ha
      have := dval_le a ha
      omega
    · exact absurd h (by simp)
  | a :: b :: rest =>
    simp only [pHour] at h
    split at h
    · split at h
      · simp only [Option.some_inj, Prod.mk.injEq] at h
        omega
      · exact absurd h (by simp)
    · split at h
      · simp only [Option.some_inj, Prod.mk.injEq] at h
        rename_i hna ha
        have := dval_le a ha
        omega
      · exact absurd h (by simp)

/-- Bound carried by a successful `pMinEnd` parse. -/
theorem pMinEnd_bounds (cs : List Char) (v : Nat) (h : pMinEnd cs = some v) :
    v ≤ 59 := by
  match cs with
  | [] => simp [pMinEnd] at h
  | [a] =>
    simp only [pMinEnd] at h
    split at h
    · simp only [Option.some_inj] at h
      rename_i ha
      have := dval_le a ha
      omega
    · exact absurd h (by simp)
  | [a, b] =>
    simp only [pMinEnd] at h
    split at h
    · split at h
      · simp only [Option.some_inj] at h
        omega
      · exact absurd h (by simp)
    · exact absurd h (by simp)
  | _ :: _ :: _ :: _ => simp [pMinEnd] at h

/-- Field bounds of a successful `parseDateExact`. -/
theorem parseDateExact_bounds (cs : List Char) (y m d : Nat)
    (h : parseDateExact cs = some (y, m, d)) :
    1 ≤ d ∧ d ≤ 31 ∧ 1 ≤ m ∧ m ≤ 12 := by
  simp only [parseDateExact] at h
  split at h
  case _ d' r1 hd =>
    split at h
    case _ r2 hs1 =>
      split at h
      case _ m' r3 hm =>
        split at h
        case _ r4 hs2 =>
          split at h
          case _ y' r5 hy =>
            split at h
            · rcases h with ⟨rfl, rfl, rfl⟩
              have h1 := pD2_bounds 1 31 cs r1 d (by omega) rfl hd
              have h2 := pD2_bounds 1 12 r2 r3 m (by omega) rfl hm
              omega
            · exact absurd h (by simp)
          case _ => exact absurd h (by simp)
        case _ => exact absurd h (by simp)
      case _ => exact absurd h (by simp)
    case _ => exact absurd h (by simp)
  case _ => exact absurd h (by simp)

/-- Shape of a successful `strptimeDMYHM` parse: the date is exactly the
parse of the maximal digit-or-slash prefix, and every component obeys the
directive and constructor bounds. -/
theorem strptime_shape (cs : List Char) (y m d h mi : Nat)
    (hs : strptimeDMYHM cs = some (y, m, d, h, mi)) :
    parseDateExact (cs.takeWhile (fun c => isDig c || c = '/')) = some (y, m, d) ∧
    1 ≤ y ∧ 1 ≤ m ∧ m ≤ 12 ∧ 1 ≤ d ∧ d ≤ dim y m ∧ h ≤ 23 ∧ mi ≤ 59 := by
  simp only [strptimeDMYHM] at hs
  rcases hq : parseDateExact (cs.takeWhile (fun c => isDig c || c = '/')) with _ | ⟨y', m', d'⟩
  · simp only [hq] at hs
    exact Option.noConfusion hs
  · simp only [hq] at hs
    rcases hr : cs.drop (cs.takeWhile (fun c => isDig c || c = '/')).length with _ | ⟨c, rest⟩
    · simp only [hr] at hs
      exact Option.noConfusion hs
    · simp only [hr] at hs
      by_cases hw : isWS c = true
      case neg => simp [hw] at hs
      rw [if_pos hw] at hs
      rcases hph : pHour ((c :: rest).dropWhile isWS) with _ | ⟨h', r1⟩
      · simp only [hph] at hs
        exact Option.noConfusion hs
      · simp only [hph] at hs
        rcases hcol : pLit ':' r1 with _ | r2
        · simp only [hcol] at hs
          exact Option.noConfusion hs
        · simp only [hcol] at hs
          rcases hpm : pMinEnd r2 with _ | mi'
          · simp only [hpm] at hs
            exact Option.noConfusion hs
          · simp only [hpm] at hs
            split at hs
            · rename_i hval
              simp only [Option.some_inj, Prod.mk.injEq] at hs
              obtain ⟨e1, e2, e3, e4, e5⟩ := hs
              subst e1; subst e2; subst e3; subst e4; subst e5
              have hb := parseDateExact_bounds _ _ _ _ hq
              exact ⟨rfl, hval.1, by omega, by omega, by omega, hval.2,
                pHour_bounds _ _ _ hph, pMinEnd_bounds _ _ hpm⟩
            · exact Option.noConfusion hs

/-- A `List.takeWhile` cannot cross an element the predicate rejects. -/
theorem takeWhile_append_cons (p : Char → Bool) (c : Char) (hc : p c = false) :
    ∀ (xs ys : List Char), (xs ++ c :: ys).takeWhile p = xs.takeWhile p := by
  intro xs ys
  induction xs with
  | nil => simp [List.takeWhile, hc]
  | cons x t ih =>
    simp only [List.cons_append, List.takeWhile]
    cases hx : p x <;> simp [ih]

/-- The two `strptime` calls of `create_shift` share the date literal, and
the date region of the format consumes only digits and slashes, so when both
succeed they agree on the civil date. -/
theorem strptime_dates_eq (D t1 t2 : String)
    (y1 m1 d1 h1 n1 y2 m2 d2 h2 n2 : Nat)
    (hp1 : strptimeDMYHM (D ++ " " ++ t1).data = some (y1, m1, d1, h1, n1))
    (hp2 : strptimeDMYHM (D ++ " " ++ t2).data = some (y2, m2, d2, h2, n2)) :
    y1 = y2 ∧ m1 = m2 ∧ d1 = d2 := by
  have hdata : ∀ t : String, (D ++ " " ++ t).data = D.data ++ ' ' :: t.data := by
    intro t
    simp [String.data_append]
  have hsp : (fun c => isDig c || c = '/') ' ' = false := by decide
  have e1 := (strptime_shape _ _ _ _ _ _ hp1).1
  have e2 := (strptime_shape _ _ _ _ _ _ hp2).1
  rw [hdata t1, takeWhile_append_cons _ _ hsp] at e1
  rw [hdata t2, takeWhile_append_cons _ _ hsp] at e2
  rw [e1] at e2
  simp only [Option.some_inj, Prod.mk.injEq] at e2
  exact ⟨e2.1, e2.2.1, e2.2.2⟩

/-! ## Lemmas about characters, digits and the Time Normalizer -/

/-- A character is determined by its code point. -/
theorem char_eq_of_toNat (a b : Char) (h : a.toNat = b.toNat) : a = b := by
  apply Char.ext
  apply UInt32.eq_of_toBitVec_eq
  apply BitVec.eq_of_toNat_eq
  simpa [Char.toNat, UInt32.toNat] using h

/-- The code-point bounds behind `isDig`. -/
theorem isDig_iff (a : Char) : isDig a = true ↔ 48 ≤ a.toNat ∧ a.toNat ≤ 57 := by
  simp [isDig]

/-- The map `digitChar` inverts `dval` on digit characters. -/
theorem digitChar_dval (a : Char) (ha : isDig a = true) : digitChar (dval a) = a := by
  rw [isDig_iff] at ha
  have h : a.toNat = 48 ∨ a.toNat = 49 ∨ a.toNat = 50 ∨ a.toNat = 51 ∨ a.toNat = 52 ∨
      a.toNat = 53 ∨ a.toNat = 54 ∨ a.toNat = 55 ∨ a.toNat = 56 ∨ a.toNat = 57 := by omega
  rcases h with h | h | h | h | h | h | h | h | h | h
  · have := char_eq_of_toNat a '0' (by rw [h]; rfl); subst this; rfl
  · have := char_eq_of_toNat a '1' (by rw [h]; rfl); subst this; rfl
  · have := char_eq_of_toNat a '2' (by rw [h]; rfl); subst this; rfl
  · have := char_eq_of_toNat a '3' (by rw [h]; rfl); subst this; rfl
  · have := char_eq_of_toNat a '4' (by rw [h]; rfl); subst this; rfl
  · have := char_eq_of_toNat a '5' (by rw [h]; rfl); subst this; rfl
  · have := char_eq_of_toNat a '6' (by rw [h]; rfl); subst this; rfl
  · have := char_eq_of_toNat a '7' (by rw [h]; rfl); subst this; rfl
  · have := char_eq_of_toNat a '8' (by rw [h]; rfl); subst this; rfl
  · have := char_eq_of_toNat a '9' (by rw [h]; rfl); subst this; rfl

/-- Digit characters are not whitespace. -/
theorem isDig_not_ws (a : Char) (ha : isDig a = true) : isWS a = false := by
  rw [isDig_iff] at ha
  simp only [isWS, Bool.or_eq_false_iff, decide_eq_false_iff_not]
  omega

/-- Digit characters are none of the separator and sign characters. -/
theorem isDig_ne (a : Char) (ha : isDig a = true) : a ≠ ':' ∧ a ≠ '+' ∧ a ≠ '-' := by
  rw [isDig_iff] at ha
  refine ⟨fun he => ?_, fun he => ?_, fun he => ?_⟩ <;> (subst he; revert ha; decide)

/-- A digit's value is below 10. -/
theorem dval_lt10 (a : Char) (ha : isDig a = true) : dval a < 10 := by
  rw [isDig_iff] at ha
  simp only [dval]
  omega

/-- A `dropWhile` is the identity when the predicate holds nowhere. -/
theorem dropWhile_eq_self_of (p : Char → Bool) :
    ∀ cs : List Char, (∀ c ∈ cs, p c = false) → cs.dropWhile p = cs := by
  intro cs h
  cases cs with
  | nil => rfl
  | cons c t => simp [List.dropWhile, h c (List.mem_cons_self c t)]

/-- Python `strip` is the identity on whitespace-free text. -/
theorem stripL_eq_self (cs : List Char) (h : ∀ c ∈ cs, isWS c = false) :
    stripL cs = cs := by
  unfold stripL
  rw [dropWhile_eq_self_of isWS cs h,
    dropWhile_eq_self_of isWS cs.reverse (by simpa using h), List.reverse_reverse]

/-- Splitting separator-free text yields one piece. -/
theorem splitChar_no_sep (sep : Char) :
    ∀ cs : List Char, (∀ c ∈ cs, c ≠ sep) → splitChar sep cs = [cs] := by
  intro cs
  induction cs with
  | nil => intro _; rfl
  | cons c t ih =>
    intro h
    have hc : ¬ c = sep := h c (List.mem_cons_self c t)
    simp only [splitChar, if_neg hc, ih (fun x hx => h x (List.mem_cons_of_mem c hx))]

/-- Splitting at the first separator yields the first piece and the split of
the remainder. -/
theorem splitChar_mid (sep : Char) (ms : List Char) :
    ∀ hs : List Char, (∀ c ∈ hs, c ≠ sep) →
      splitChar sep (hs ++ sep :: ms) = hs :: splitChar sep ms := by
  intro hs
  induction hs with
  | nil => intro _; simp [splitChar]
  | cons c t ih =>
    intro h
    have hc : ¬ c = sep := h c (List.mem_cons_self c t)
    have ht := ih (fun x hx => h x (List.mem_cons_of_mem c hx))
    rw [List.cons_append]
    simp only [splitChar, if_neg hc, List.append_eq, ht]

/-- Python `int()` succeeds on non-empty all-digit text with its base-10 value. -/
theorem pyInt_digits (cs : List Char) (hne : cs ≠ [])
    (h : ∀ c ∈ cs, isDig c = true) : pyInt cs = some (digitsToNat cs : Int) := by
  have hs : stripL cs = cs := stripL_eq_self cs (fun c hc => isDig_not_ws c (h c hc))
  match cs, hne with
  | c :: rest, _ =>
    have hc := h c (List.mem_cons_self c rest)
    obtain ⟨-, hplus, hminus⟩ := isDig_ne c hc
    simp only [pyInt, hs, if_neg hplus, if_neg hminus,
      if_pos (List.all_eq_true.mpr h)]

/-- One unfolding step of `natCharsAux`. -/
theorem natCharsAux_succ (fuel n : Nat) :
    natCharsAux (fuel + 1) n =
      if n < 10 then [digitChar n]
      else natCharsAux fuel (n / 10) ++ [digitChar (n % 10)] := rfl

/-- Decimal rendering of a one-digit value. -/
theorem natChars_small (n : Nat) (h : n < 10) : natChars n = [digitChar n] := by
  show natCharsAux (n + 1) n = _
  rw [natCharsAux_succ, if_pos h]

/-- Decimal rendering of a two-digit value. -/
theorem natChars_two (n : Nat) (h1 : 10 ≤ n) (h2 : n < 100) :
    natChars n = [digitChar (n / 10), digitChar (n % 10)] := by
  have hq : n / 10 < 10 := by omega
  obtain ⟨k, hk⟩ : ∃ k, n = k + 1 := ⟨n - 1, by omega⟩
  show natCharsAux (n + 1) n = _
  rw [natCharsAux_succ, if_neg (by omega : ¬ n < 10), hk, natCharsAux_succ,
    if_pos (by omega : (k + 1) / 10 < 10), ← hk]
  rfl

/-- Format `f"{v:02d}"` of a one-digit value pads with a zero. -/
theorem pad2_lt10 (v : Nat) (h : v < 10) : pad2 (v : Int) = ['0', digitChar v] := by
  simp only [pad2, if_neg (by omega : ¬ (v : Int) < 0), Int.natAbs_ofNat,
    natChars_small v h, List.length_singleton]
  rfl

/-- Format `f"{v:02d}"` of a two-digit value is its two digits. -/
theorem pad2_two (v : Nat) (h1 : 10 ≤ v) (h2 : v < 100) :
    pad2 (v : Int) = [digitChar (v / 10), digitChar (v % 10)] := by
  simp only [pad2, if_neg (by omega : ¬ (v : Int) < 0), Int.natAbs_ofNat,
    natChars_two v h1 h2]
  rfl

/-- Format `f"{v:02d}"` round-trips a two-character digit group. -/
theorem pad2_pair (x1 x2 : Char) (h1 : isDig x1 = true) (h2 : isDig x2 = true) :
    pad2 ((10 * dval x1 + dval x2 : Nat) : Int) = [x1, x2] := by
  have hv2 := dval_lt10 x2 h2
  by_cases hsm : 10 * dval x1 + dval x2 < 10
  · have hx1 : dval x1 = 0 := by omega
    rw [pad2_lt10 _ hsm]
    have e2 : digitChar (10 * dval x1 + dval x2) = x2 := by
      rw [hx1, show 10 * 0 + dval x2 = dval x2 from by omega]
      exact digitChar_dval x2 h2
    have e1 : ('0' : Char) = x1 := by
      rw [← digitChar_dval x1 h1, hx1]
      rfl
    rw [e2, e1]
  · have hv1 := dval_lt10 x1 h1
    rw [pad2_two _ (by omega) (by omega)]
    have hq : (10 * dval x1 + dval x2) / 10 = dval x1 := by omega
    have hr : (10 * dval x1 + dval x2) % 10 = dval x2 := by omega
    rw [hq, hr, digitChar_dval x1 h1, digitChar_dval x2 h2]

/-- Evaluation of the Time Normalizer on a token made of a digit group, a
colon and a digit group. -/
theorem parse_timeC_eval (hs ms : List Char) (hne : hs ≠ []) (hmne : ms ≠ [])
    (hhd : ∀ c ∈ hs, isDig c = true) (hmd : ∀ c ∈ ms, isDig c = true) :
    parse_timeC (hs ++ ':' :: ms) =
      some (pad2 (digitsToNat hs : Int) ++ ':' :: pad2 (digitsToNat ms : Int)) := by
  have hcon : (hs ++ ':' :: ms).contains ':' = true := by
    simp [List.contains, List.elem_eq_mem]
  have hws : ∀ c ∈ hs ++ ':' :: ms, isWS c = false := by
    intro c hc
    rcases List.mem_append.mp hc with hcl | hcr
    · exact isDig_not_ws c (hhd c hcl)
    · rcases List.mem_cons.mp hcr with rfl | hcr
      · rfl
      · exact isDig_not_ws c (hmd c hcr)
  have hsplit : splitChar ':' (stripL (hs ++ ':' :: ms)) = [hs, ms] := by
    rw [stripL_eq_self _ hws, splitChar_mid ':' ms hs
        (fun c hc => (isDig_ne c (hhd c hc)).1),
      splitChar_no_sep ':' ms (fun c hc => (isDig_ne c (hmd c hc)).1)]
  simp only [parse_timeC, hcon, if_pos, hsplit, pyInt_digits hs hne hhd,
    pyInt_digits ms hmne hmd]

/-- Effect of a rest-day date line: the date is updated, nothing is
emitted, and the pending fragment slot is untouched. -/
theorem lineEffect_rest (cd : Option String) (fr : Option FirstShift)
    (line : List Char) (dt : String)
    (hh : headerMarkers.any (fun mk => hasSub line mk) = false)
    (h9 : leadMatch "9387".data line = true)
    (hd : dateSearch line = some dt)
    (hr : isRest line = true) :
    lineEffect cd fr line = ([], some dt, fr) := by
  simp [lineEffect, hh, h9, hd, hr]

/-! ## Claim theorems -/

/-- Claim C1.  For every parse, when a pending first-shift fragment exists as
the first general match of a date's processing is produced, that match's
origin checkpoint (`ldebpce`) and start time are replaced by the fragment's,
every other field of the match is kept (the record update touches nothing
else), the fragment is cleared immediately (the returned pending slot is
`none`), and no later match of the run is overridden (the tail is built
unchanged); with no pending fragment no match is ever overridden, so the
override happens at most once per date. -/
theorem first_general_match_carryover (date : String) (f : FirstShift)
    (g : ShiftInfo) (gs : List ShiftInfo) :
    processShifts date (g :: gs) (some f) =
      ((create_shift date
          { g with ldebpce := f.ldebpce, start_time := f.start_time }).toList
        ++ gs.filterMap (create_shift date), none) ∧
    processShifts date gs none = (gs.filterMap (create_shift date), none) :=
  ⟨processShifts_some date f g gs, processShifts_none date gs⟩

/-- Claim C9.  A failing build is local: the emitted shifts of a run are the
`filterMap` of the carry-adjusted match list, so a group whose build fails
is exactly dropped while every other group still contributes in order; and
one line's effect appends to the accumulated output without reading it, so
no failure aborts the pass over later lines. -/
theorem shift_build_failure_skipped :
    (∀ (date : String) (gs : List ShiftInfo) (frag : Option FirstShift),
      (processShifts date gs frag).1 =
        (applyCarry frag gs).filterMap (create_shift date)) ∧
    (∀ (date : String) (gs : List ShiftInfo) (frag : Option FirstShift)
        (g : ShiftInfo), g ∈ applyCarry frag gs → create_shift date g = none →
      (processShifts date gs frag).1 =
        ((applyCarry frag gs).erase g).filterMap (create_shift date)) ∧
    (∀ (st : PState) (line : List Char),
      (stepLine st line).shifts =
        st.shifts ++ (lineEffect st.current_date st.first_shift_time line).1 ∧
      (stepLine st line).current_date =
        (lineEffect st.current_date st.first_shift_time line).2.1 ∧
      (stepLine st line).first_shift_time =
        (lineEffect st.current_date st.first_shift_time line).2.2) := by
  refine ⟨fun date gs frag => (processShifts_spec date gs frag).1,
    fun date gs frag g hg hfg => ?_, fun st line => ?_⟩
  · rw [(processShifts_spec date gs frag).1]
    exact filterMap_erase_of_none _ _ g hg hfg
  · simp [stepLine]

/-- Witness for C9: on 02/09/2024 the group with start time `25:99` fails to
build and is dropped while the other group of the same run is kept. -/
theorem shift_build_failure_skipped_witness :
    (processShifts "02/09/2024" [siBad, siGood] none).1 =
      (([siBad, siGood] : List ShiftInfo).erase siBad).filterMap
        (create_shift "02/09/2024") :=
  shift_build_failure_skipped.2.1 "02/09/2024" [siBad, siGood] none siBad
    (by decide) (by decide)

/-- Claim C5.  A date line with a successfully extracted date whose
whitespace-split tokens at positions 3-4 carry a rest/holiday code updates
the current date and emits nothing: no extraction runs on the line. -/
theorem rest_day_line_skipped (cd : Option String) (fr : Option FirstShift)
    (line : List Char) (dt : String)
    (hh : headerMarkers.any (fun mk => hasSub line mk) = false)
    (h9 : leadMatch "9387".data line = true)
    (hd : dateSearch line = some dt)
    (hr : isRest line = true) :
    lineEffect cd fr line = ([], some dt, fr) :=
  lineEffect_rest cd fr line dt hh h9 hd hr

/-- Witness for C5: a rest-day line carrying shift-like substrings updates
the date to `07/09/2024` and emits nothing. -/
theorem rest_day_line_skipped_witness :
    lineEffect (some "01/09/2024") none restLineW = ([], some "07/09/2024", none) :=
  rest_day_line_skipped (some "01/09/2024") none restLineW "07/09/2024"
    (by decide) (by decide) (by decide) (by decide)

/-- Claim C6.  A `9387` line whose date pattern fails leaves the whole parser
state unchanged and emits nothing; and while no date is established, any
non-date line is ignored. -/
theorem no_date_frame (cd : Option String) (fr : Option FirstShift)
    (line : List Char) :
    (leadMatch "9387".data line = true → dateSearch line = none →
      lineEffect cd fr line = ([], cd, fr)) ∧
    (leadMatch "9387".data line = false → cd = none →
      lineEffect cd fr line = ([], none, fr)) := by
  constructor
  · intro h9 hd
    by_cases hh : headerMarkers.any (fun mk => hasSub line mk) = true
    · simp [lineEffect, hh]
    · simp at hh
      simp [lineEffect, hh, h9, hd]
  · intro h9 hcd
    subst hcd
    by_cases hh : headerMarkers.any (fun mk => hasSub line mk) = true
    · simp [lineEffect, hh]
    · simp at hh
      simp [lineEffect, hh, h9]

/-- Witness for C6: a `9387` line with no extractable date leaves a prior
date in place; a continuation-shaped line under no date is ignored. -/
theorem no_date_frame_witness :
    lineEffect (some "01/09/2024") none ("9387 foo".data) =
      ([], some "01/09/2024", none) ∧
    lineEffect none none ("12 5 - 6 XYZ 06:00 06:40 SRV".data) = ([], none, none) :=
  ⟨(no_date_frame (some "01/09/2024") none ("9387 foo".data)).1 (by decide) (by decide),
   (no_date_frame none none ("12 5 - 6 XYZ 06:00 06:40 SRV".data)).2 (by decide) rfl⟩

/-- Claim C10.  A rest-day date line leaves the pending first-shift fragment
slot untouched (only the current date changes), so a fragment from an
earlier date that is still pending is applied — overriding origin checkpoint
and start time — to the first general match of a continuation line processed
under the rest day's date, as the three-line scenario shows: the emitted
shift carries the rest day's date 03/09/2024 with the origin `ABC` and start
05:10 of the fragment extracted on the 02/09/2024 line. -/
theorem fragment_survives_rest_day :
    (∀ (cd : Option String) (fr : Option FirstShift) (line : List Char)
        (dt : String),
      headerMarkers.any (fun mk => hasSub line mk) = false →
      leadMatch "9387".data line = true →
      dateSearch line = some dt → isRest line = true →
      (lineEffect cd fr line).2.2 = fr ∧ (lineEffect cd fr line).1 = []) ∧
    parse_schedule c10text =
      [⟨(2024, 9, 3), ⟨2024, 9, 3, 310⟩, ⟨2024, 9, 3, 400⟩, "12", "ABC", "SRV",
        "1.50h", "12 5 - 6 XYZ 06:00 06:40 SRV"⟩] := by
  constructor
  · intro cd fr line dt hh h9 hd hr
    rw [lineEffect_rest cd fr line dt hh h9 hd hr]
    exact ⟨rfl, rfl⟩
  · decide

/-- Witness for C10: the rest-day line of the scenario leaves the pending
fragment of 02/09/2024 in place. -/
theorem fragment_survives_rest_day_witness :
    (lineEffect (some "02/09/2024") (some ⟨"ABC", some "05:10"⟩)
        ("9387 mar. 03/09/2024 R".data)).2.2 = some ⟨"ABC", some "05:10"⟩ :=
  (fragment_survives_rest_day.1 (some "02/09/2024") (some ⟨"ABC", some "05:10"⟩)
    ("9387 mar. 03/09/2024 R".data) "03/09/2024"
    (by decide) (by decide) (by decide) (by decide)).1

/-- Claim C3, amended.  Every record the builder returns satisfies
`startInstant ≤ endInstant` in the wall-clock order the builder itself
compares with (aware datetimes sharing one `tzinfo` compare naively): when
the parsed end sorts before the start the rollover adds one day, and a day
strictly exceeds any in-day deficit; otherwise the order already holds.
The spec's strict `>` fails when start and end coincide. -/
theorem end_never_before_start (ds : String) (si : ShiftInfo) (s : Shift)
    (h : create_shift ds si = some s) : s.start.wall ≤ s.end_.wall := by
  simp only [create_shift] at h
  rcases h1 : strptimeDMYHM (ds ++ " " ++ optStr si.start_time).data with
    _ | ⟨y1, m1, d1, hh1, n1⟩ <;> simp only [h1] at h
  · exact Option.noConfusion h
  rcases h2 : strptimeDMYHM (ds ++ " " ++ optStr si.end_time).data with
    _ | ⟨y2, m2, d2, hh2, n2⟩ <;> simp only [h2] at h
  · exact Option.noConfusion h
  obtain ⟨hq1, hy1, hm1a, hm1b, hd1a, hd1b, hh1b, hn1b⟩ := strptime_shape _ _ _ _ _ _ h1
  obtain ⟨hq2, hy2, hm2a, hm2b, hd2a, hd2b, hh2b, hn2b⟩ := strptime_shape _ _ _ _ _ _ h2
  obtain ⟨ey, em, ed⟩ := strptime_dates_eq ds _ _ _ _ _ _ _ _ _ _ _ _ h1 h2
  rw [Option.some_inj] at h
  subst h
  dsimp only
  by_cases hroll :
      (⟨y2, m2, d2, hh2 * 60 + n2⟩ : DT).wall < (⟨y1, m1, d1, hh1 * 60 + n1⟩ : DT).wall
  · rw [if_pos hroll]
    have hadd := addDay_wall ⟨y2, m2, d2, hh2 * 60 + n2⟩ hm2a hm2b hd2a hd2b
    rw [hadd]
    subst ey; subst em; subst ed
    simp only [DT.wall] at *
    omega
  · rw [if_neg hroll]
    simp only [DT.wall] at *
    omega

/-- Witness for the amended C3 at a concrete input. -/
theorem end_never_before_start_witness : shGood.start.wall ≤ shGood.end_.wall :=
  end_never_before_start "02/09/2024" siGood shGood (by decide)

/-- Counterexample to C3 as stated: with start 08:00 and end 08:00 the
builder succeeds and the end equals the start — neither the wall-clock nor
the zone-resolved instant is strictly greater. -/
theorem strict_invariant_fails :
    create_shift "02/09/2024" siEq = some shEq ∧
    ¬ shEq.start.wall < shEq.end_.wall ∧ ¬ shEq.start.abs < shEq.end_.abs := by
  exact ⟨by decide, by decide, by decide⟩

/-- Claim C4, amended.  The `duration` field of every built record is the
display string itself — elapsed wall-clock minutes rendered as hours with
exactly two decimals and an `h` suffix — not an unrounded numeric value. -/
theorem duration_is_display_string (ds : String) (si : ShiftInfo) (s : Shift)
    (h : create_shift ds si = some s) :
    s.duration = fmt2h (s.end_.wall - s.start.wall) := by
  simp only [create_shift] at h
  rcases h1 : strptimeDMYHM (ds ++ " " ++ optStr si.start_time).data with
    _ | ⟨y1, m1, d1, hh1, n1⟩ <;> simp only [h1] at h
  · exact Option.noConfusion h
  rcases h2 : strptimeDMYHM (ds ++ " " ++ optStr si.end_time).data with
    _ | ⟨y2, m2, d2, hh2, n2⟩ <;> simp only [h2] at h
  · exact Option.noConfusion h
  rw [Option.some_inj] at h
  subst h
  rfl

/-- Witness for the amended C4 at a concrete input. -/
theorem duration_is_display_string_witness :
    sh50.duration = fmt2h (sh50.end_.wall - sh50.start.wall) :=
  duration_is_display_string "02/09/2024" si50 sh50 (by decide)

/-- Counterexample to C4 as stated: a 50-minute shift stores `"0.83h"`,
and 0.83 hours is not 50 minutes — the stored field is the rounded display
value, no precise numeric duration is kept in the record. -/
theorem duration_not_precise :
    create_shift "02/09/2024" si50 = some sh50 ∧ sh50.duration = "0.83h" ∧
    (sh50.end_.wall - sh50.start.wall) * 100 ≠ 83 * 60 := by
  exact ⟨by decide, by decide, by decide⟩

/-- Value of a two-character digit group. -/
theorem digitsToNat_pair (x y : Char) :
    digitsToNat [x, y] = 10 * dval x + dval y := by
  simp [digitsToNat]

/-- Claim C7.  On every valid token made of a 1-2 digit hour group, a colon
and a 2-digit minute group, the Time Normalizer succeeds, both components of
its output are zero-padded two-digit groups, and re-normalizing the output
returns it unchanged. -/
theorem time_normalizer_valid (hs ms : List Char)
    (hlen : hs.length = 1 ∨ hs.length = 2) (hhd : ∀ c ∈ hs, isDig c = true)
    (hmlen : ms.length = 2) (hmd : ∀ c ∈ ms, isDig c = true) :
    ∃ os om : List Char,
      parse_timeC (hs ++ ':' :: ms) = some (os ++ ':' :: om) ∧
      os.length = 2 ∧ om.length = 2 ∧ (∀ c ∈ os, isDig c = true) ∧
      (∀ c ∈ om, isDig c = true) ∧
      parse_timeC (os ++ ':' :: om) = some (os ++ ':' :: om) := by
  obtain ⟨y1, y2, rfl⟩ : ∃ y1 y2, ms = [y1, y2] := by
    match ms, hmlen with
    | [y1, y2], _ => exact ⟨y1, y2, rfl⟩
  have hy1 := hmd y1 (by simp)
  have hy2 := hmd y2 (by simp)
  have hpadm : pad2 (digitsToNat [y1, y2] : Int) = [y1, y2] := by
    rw [digitsToNat_pair]
    exact pad2_pair y1 y2 hy1 hy2
  rcases hlen with h1 | h2
  · obtain ⟨a, rfl⟩ : ∃ a, hs = [a] := by
      match hs, h1 with
      | [a], _ => exact ⟨a, rfl⟩
    have ha := hhd a (by simp)
    have hd0 : ∀ c ∈ ['0', a], isDig c = true := by
      intro c hc
      rcases List.mem_cons.mp hc with rfl | hc
      · decide
      · rw [List.mem_singleton.mp hc]; exact ha
    have hpadh : pad2 (digitsToNat [a] : Int) = ['0', a] := by
      have : digitsToNat [a] = dval a := by simp [digitsToNat]
      rw [this, pad2_lt10 _ (dval_lt10 a ha), digitChar_dval a ha]
    refine ⟨['0', a], [y1, y2], ?_, rfl, rfl, hd0, hmd, ?_⟩
    · rw [parse_timeC_eval [a] [y1, y2] (by simp) (by simp) hhd hmd, hpadh, hpadm]
    · rw [parse_timeC_eval ['0', a] [y1, y2] (by simp) (by simp) hd0 hmd]
      have : pad2 (digitsToNat ['0', a] : Int) = ['0', a] := by
        rw [digitsToNat_pair]
        exact pad2_pair '0' a (by decide) ha
      rw [this, hpadm]
  · obtain ⟨a1, a2, rfl⟩ : ∃ a1 a2, hs = [a1, a2] := by
      match hs, h2 with
      | [a1, a2], _ => exact ⟨a1, a2, rfl⟩
    have ha1 := hhd a1 (by simp)
    have ha2 := hhd a2 (by simp)
    have hpadh : pad2 (digitsToNat [a1, a2] : Int) = [a1, a2] := by
      rw [digitsToNat_pair]
      exact pad2_pair a1 a2 ha1 ha2
    refine ⟨[a1, a2], [y1, y2], ?_, rfl, rfl, hhd, hmd, ?_⟩
    · rw [parse_timeC_eval [a1, a2] [y1, y2] (by simp) (by simp) hhd hmd, hpadh, hpadm]
    · rw [parse_timeC_eval [a1, a2] [y1, y2] (by simp) (by simp) hhd hmd, hpadh, hpadm]

/-- Witness for C7 at the token `5:07`. -/
theorem time_normalizer_valid_witness :
    ∃ os om : List Char,
      parse_timeC (['5'] ++ ':' :: ['0', '7']) = some (os ++ ':' :: om) ∧
      os.length = 2 ∧ om.length = 2 ∧ (∀ c ∈ os, isDig c = true) ∧
      (∀ c ∈ om, isDig c = true) ∧
      parse_timeC (os ++ ':' :: om) = some (os ++ ':' :: om) :=
  time_normalizer_valid ['5'] ['0', '7'] (Or.inl rfl) (by decide) rfl (by decide)

/-- Claim C8.  The Time Normalizer fails on any token without a colon and on
any token whose two split components are not both integers; when both
components convert, it returns their zero-padded formatting without any
range check, so out-of-range values such as 25:99 pass through. -/
theorem time_normalizer_failure (s : List Char) :
    (s.contains ':' = false → parse_timeC s = none) ∧
    (∀ hs ms : List Char, splitChar ':' (stripL s) = [hs, ms] →
      pyInt hs = none ∨ pyInt ms = none → parse_timeC s = none) ∧
    (∀ (hs ms : List Char) (h m : Int), s.contains ':' = true →
      splitChar ':' (stripL s) = [hs, ms] → pyInt hs = some h →
      pyInt ms = some m → parse_timeC s = some (pad2 h ++ ':' :: pad2 m)) := by
  refine ⟨fun hc => ?_, fun hs ms hsp hor => ?_,
    fun hs ms h m hc hsp hh hm => ?_⟩
  · unfold parse_timeC
    rw [if_neg (by rw [hc]; simp)]
  · by_cases hc : s.contains ':' = true
    · simp only [parse_timeC, hc, if_true, hsp]
      rcases hph : pyInt hs with _ | hv <;> rcases hpm : pyInt ms with _ | mv <;>
        simp_all
    · unfold parse_timeC
      rw [if_neg hc]
  · simp only [parse_timeC, hc, if_true, hsp, hh, hm]

/-- Witness for C8: no colon, non-integer components, and the accepted
out-of-range token 25:99. -/
theorem time_normalizer_failure_witness :
    parse_timeC "abc".data = none ∧ parse_timeC "aa:bb".data = none ∧
    parse_timeC "25:99".data = some (pad2 25 ++ ':' :: pad2 99) :=
  ⟨(time_normalizer_failure "abc".data).1 (by decide),
   (time_normalizer_failure "aa:bb".data).2.1 ['a', 'a'] ['b', 'b'] (by decide)
     (Or.inl (by decide)),
   (time_normalizer_failure "25:99".data).2.2 ['2', '5'] ['9', '9'] 25 99
     (by decide) (by decide) (by decide) (by decide)⟩

/-- Claim C2.  On 02/09/2024 with start 23:30 and end 00:15 the builder
succeeds; the end is the pre-rollover end advanced by one day, both the
wall-clock values the builder compares and the zone-resolved instants differ
by exactly 45 minutes, and the displayed duration is `0.75h`. -/
theorem midnight_rollover_roundtrip :
    create_shift "02/09/2024" ⟨"12", "ABC", "DEF", some "23:30", some "00:15", "L"⟩ =
      some ⟨(2024, 9, 2), ⟨2024, 9, 2, 1410⟩, ⟨2024, 9, 3, 15⟩, "12", "ABC", "DEF",
        "0.75h", "L"⟩ ∧
    (⟨2024, 9, 3, 15⟩ : DT).wall = (⟨2024, 9, 2, 1410⟩ : DT).wall + 45 ∧
    (⟨2024, 9, 3, 15⟩ : DT).abs = (⟨2024, 9, 2, 1410⟩ : DT).abs + 45 ∧
    (⟨2024, 9, 3, 15⟩ : DT) = DT.addDay ⟨2024, 9, 2, 15⟩ := by
  exact ⟨by decide, by decide, by decide, by decide⟩

end PdfToIcs
